import Mathlib

/-!
# ChronoCalc — verification of the position-search core

Shallow embedding of `chronocalc.py`.

Conventions of the embedding:

* Instants are integers: minutes elapsed since Jan 1, 00:00:00 (naive UTC)
  of the target year.  `datetime(year, 1, 1, 0, 0, 0)` is `0`;
  `datetime(year, 12, 31, 23, 59, 0)` is `yearEndMinutes year`.
  The solstice instant returned by the ephemeris library carries seconds,
  so it is passed in as a count of *seconds* since Jan 1 00:00:00 and the
  `replace(minute=0, second=0, microsecond=0)` truncation becomes
  `truncToHour`.
* Angles (degrees) and the moon phase are rationals.
* The ephemeris library (`ephem`) is an external oracle: a function from an
  instant to the body's topocentric position.  The observer (lon, lat,
  elevation) is fixed for a run, so the oracle is already specialised to it;
  determinism of two runs over possibly different oracle values is stated
  explicitly where needed.
* `Python round(x, n)` (round-half-even on decimals) is `pyRound`.
* `list.sort` in Python is a stable sort; it is embedded as
  `List.mergeSort`, which is stable.
* Console/time-zone conversion is display-only glue: a reported row keeps
  the UTC instant together with the rounded values that are printed.
-/

/-- Topocentric sun position returned by the oracle at one instant. -/
structure SunPos where
  alt : ℚ
  az : ℚ
deriving DecidableEq

/-- Topocentric moon position (with illuminated fraction `phase ∈ [0,1]`). -/
structure MoonPos where
  alt : ℚ
  az : ℚ
  phase : ℚ
deriving DecidableEq

/-- The searched-for sky position (`-alt` / `-az` CLI arguments). -/
structure Target where
  alt : ℚ
  az : ℚ
deriving DecidableEq

/-- Round-half-even to the nearest integer, as Python's `round` does. -/
def roundHalfEven (q : ℚ) : ℤ :=
  let n := ⌊q⌋
  let f := q - n
  if f < 1/2 then n
  else if 1/2 < f then n + 1
  else if n % 2 = 0 then n else n + 1

/-- Python's `round(q, d)`: round-half-even at `d` decimal digits. -/
def pyRound (q : ℚ) (d : ℕ) : ℚ :=
  (roundHalfEven (q * 10 ^ d) : ℚ) / 10 ^ d

/-- Gregorian leap-year test (as `datetime` uses). -/
def isLeap (year : ℤ) : Bool :=
  (year % 4 == 0 && year % 100 != 0) || year % 400 == 0

/-- Minutes from Jan 1 00:00 to Dec 31 23:59 of `year`
(`datetime(year, 12, 31, 23, 59, 0)` in the embedding's clock). -/
def yearEndMinutes (year : ℤ) : ℤ :=
  (if isLeap year then 366 else 365) * 1440 - 1

/-- `date_solstice.replace(minute=0, second=0, microsecond=0)`:
the solstice instant (in seconds since Jan 1 00:00) truncated down to the
top of its hour, expressed in minutes. -/
def truncToHour (solsticeSec : ℤ) : ℤ :=
  solsticeSec / 3600 * 60

/-- The instants enumerated by
`rrule.rrule(rrule.MINUTELY, interval=step, dtstart=start, until=stop)`:
`start + i*step` for `i = 0, 1, …` while the instant is `≤ stop`. -/
def gridTimes (start stop step : ℤ) : List ℤ :=
  if 0 < step ∧ start ≤ stop then
    (List.range (((stop - start) / step).toNat + 1)).map
      (fun (i : ℕ) => start + (i : ℤ) * step)
  else []

/-- The per-tick oracle queries of one window's loop (lines 72–74 and
48–50): each enumerated instant is paired with the one position the
ephemeris oracle computes for it. -/
def sunSamples (oracle : ℤ → SunPos) (start stop step : ℤ) :
    List (ℤ × SunPos) :=
  (gridTimes start stop step).map (fun t => (t, oracle t))

/-- The Sun-mode tolerance test on line 75:
`abs(pos.alt/degree - searchalt) < 3 and abs(pos.az/degree - searchaz) < 3`. -/
def sunAccept (p : SunPos) (tg : Target) : Bool :=
  decide (|p.alt - tg.alt| < 3) && decide (|p.az - tg.az| < 3)

/-- The Moon-mode tolerance test on line 51:
`abs(pos.alt/degree - searchalt) < 2 and abs(pos.az/degree - searchaz) < 2`. -/
def moonAccept (p : MoonPos) (tg : Target) : Bool :=
  decide (|p.alt - tg.alt| < 2) && decide (|p.az - tg.az| < 2)

/-- One tuple appended to `results` on line 77:
`(round(pos.alt/degree,2), round(pos.az/degree,2), timewindow, closeby)`. -/
structure SunEntry where
  altR : ℚ
  azR : ℚ
  instant : ℤ
  closeby : ℚ
deriving DecidableEq

/-- Build the tuple of line 76–77 for the sample at instant `t`:
`closeby` is the product of the *raw* per-axis deviations. -/
def sunEntry (oracle : ℤ → SunPos) (tg : Target) (t : ℤ) : SunEntry :=
  { altR := pyRound (oracle t).alt 2
    azR := pyRound (oracle t).az 2
    instant := t
    closeby := |(oracle t).alt - tg.alt| * |(oracle t).az - tg.az| }

/-- The accepted samples of one window, in the loop's chronological order
(the body of the `for` loop on lines 72–77). -/
def sunCandidates (oracle : ℤ → SunPos) (tg : Target)
    (calc_start calc_end accuracy : ℤ) : List SunEntry :=
  ((gridTimes calc_start calc_end accuracy).filter
    (fun t => sunAccept (oracle t) tg)).map (sunEntry oracle tg)

/-- The sort key of line 79: `results.sort(key=lambda results: results[3])`.
Python `list.sort` is stable, so it is a stable merge sort by `closeby`. -/
def entryLE (a b : SunEntry) : Bool :=
  decide (a.closeby ≤ b.closeby)

/-- `calculate_sun` (lines 62–80): extend `results` with the accepted
samples of the window, then stably sort the whole list by `closeby`. -/
def calculate_sun (oracle : ℤ → SunPos) (tg : Target)
    (calc_start calc_end accuracy : ℤ) (results : List SunEntry) :
    List SunEntry :=
  (results ++ sunCandidates oracle tg calc_start calc_end accuracy).mergeSort
    entryLE

/-- A printed Sun-mode table row: (UTC instant, rounded alt, rounded az). -/
structure SunRow where
  instant : ℤ
  altR : ℚ
  azR : ℚ
deriving DecidableEq

/-- Observable outcome of `get_sun_position` (lines 82–111). -/
inductive SunOutcome where
  | failureExit : SunOutcome
  | indexError : SunOutcome
  | report : SunRow → SunRow → SunOutcome
deriving DecidableEq

/-- Process exit status of each Sun-mode outcome: `sys.exit(message)` exits
with status 1; an uncaught `IndexError` also terminates non-zero; a printed
report returns normally (status 0). -/
def sunExitCode : SunOutcome → ℕ
  | .failureExit => 1
  | .indexError => 1
  | .report _ _ => 0

/-- The two Sun-mode search windows (lines 86–97): window A runs from
Jan 1 00:00 to the hour-truncated solstice, window B from there to
Dec 31 23:59 of the same year. -/
def splitYear (year solsticeSec : ℤ) : (ℤ × ℤ) × (ℤ × ℤ) :=
  ((0, truncToHour solsticeSec), (truncToHour solsticeSec, yearEndMinutes year))

/-- `get_sun_position` (lines 82–111): split the year at the hour-truncated
solstice, search each window with `calculate_sun`, fail hard when the first
window holds fewer than two candidates, otherwise report the head of each
sorted result list (`results1[0]`, `results2[0]`; an empty `results2` makes
line 107 raise `IndexError`). -/
def get_sun_position (oracle : ℤ → SunPos) (year solsticeSec : ℤ)
    (tg : Target) (accuracy : ℤ) : SunOutcome :=
  let w := splitYear year solsticeSec
  let results1 := calculate_sun oracle tg w.1.1 w.1.2 accuracy []
  let results2 := calculate_sun oracle tg w.2.1 w.2.2 accuracy []
  if results1.length < 2 then .failureExit
  else
    match results1.head?, results2.head? with
    | some a, some b =>
        .report ⟨a.instant, a.altR, a.azR⟩ ⟨b.instant, b.altR, b.azR⟩
    | _, _ => .indexError

/-- A printed Moon-mode table row (line 52): UTC instant, rounded altitude,
rounded azimuth, illumination percentage rounded to one decimal. -/
structure MoonEntry where
  instant : ℤ
  altR : ℚ
  azR : ℚ
  illumR : ℚ
deriving DecidableEq

/-- The row added on line 52 for the sample at instant `t`. -/
def moonEntry (oracle : ℤ → MoonPos) (t : ℤ) : MoonEntry :=
  { instant := t
    altR := pyRound (oracle t).alt 2
    azR := pyRound (oracle t).az 2
    illumR := pyRound ((oracle t).phase * 100) 1 }

/-- The rows accumulated by the Moon-mode loop (lines 48–53): the whole
year sampled at a fixed 15-minute step, filtered by the tolerance test,
in chronological order — no sorting. -/
def moonRows (oracle : ℤ → MoonPos) (year : ℤ) (tg : Target) :
    List MoonEntry :=
  ((gridTimes 0 (yearEndMinutes year) 15).filter
    (fun t => moonAccept (oracle t) tg)).map (moonEntry oracle)

/-- Observable outcome of `get_moon_position` (lines 28–60). -/
inductive MoonOutcome where
  | noSolution : MoonOutcome
  | table : List MoonEntry → MoonOutcome
deriving DecidableEq

/-- Both Moon-mode paths fall off the end of `main` normally: the
"no solution" message is informational, so the exit status is always 0. -/
def moonExitCode : MoonOutcome → ℕ
  | .noSolution => 0
  | .table _ => 0

/-- `get_moon_position` (lines 28–60): print the informational message when
the table stayed empty, otherwise print all accumulated rows. -/
def get_moon_position (oracle : ℤ → MoonPos) (year : ℤ) (tg : Target) :
    MoonOutcome :=
  let rows := moonRows oracle year tg
  if rows.isEmpty then .noSolution else .table rows

/-- A concrete test oracle: the target position ⟨45°, 180°⟩ during the
first 200000 minutes of the year, far away afterwards. -/
def w5Oracle : ℤ → SunPos :=
  fun t => if t ≤ 200000 then ⟨45, 180⟩ else ⟨0, 0⟩

/-- A concrete test oracle: the target position ⟨45°, 180°⟩ exactly at
instant 15, far away otherwise. -/
def w1Oracle : ℤ → SunPos :=
  fun t => if t = 15 then ⟨45, 180⟩ else ⟨90, 0⟩

/-- A family of test oracles for the boundary-instant scenario: the exact
target ⟨0°, 180°⟩ at instant `s`, a near-target position at instant 0, and
a far-away position elsewhere. -/
def dOracle (s : ℤ) : ℤ → SunPos :=
  fun t => if t = s then ⟨0, 180⟩ else if t = 0 then ⟨1, 181⟩ else ⟨90, 0⟩

/-! ## Lemmas about the sampling grid -/

theorem gridTimes_length {start stop step : ℤ} (hstep : 0 < step)
    (hle : start ≤ stop) :
    (gridTimes start stop step).length = ((stop - start) / step).toNat + 1 := by
  unfold gridTimes
  rw [if_pos ⟨hstep, hle⟩, List.length_map, List.length_range]

theorem gridTimes_getElem {start stop step : ℤ} (hstep : 0 < step)
    (hle : start ≤ stop) (i : ℕ) (hi : i < (gridTimes start stop step).length) :
    (gridTimes start stop step)[i] = start + (i : ℤ) * step := by
  have hsplit : gridTimes start stop step =
      (List.range (((stop - start) / step).toNat + 1)).map
        (fun (i : ℕ) => start + (i : ℤ) * step) := by
    unfold gridTimes
    rw [if_pos ⟨hstep, hle⟩]
  simp only [hsplit]
  rw [List.getElem_map, List.getElem_range]

theorem gridTimes_pairwise (start stop step : ℤ) :
    (gridTimes start stop step).Pairwise (· < ·) := by
  unfold gridTimes
  split
  · next h =>
    rw [List.pairwise_map]
    refine (List.pairwise_lt_range _).imp ?_
    intro a b hab
    have h1 : (a : ℤ) < (b : ℤ) := by exact_mod_cast hab
    have h2 : (a : ℤ) * step < (b : ℤ) * step :=
      mul_lt_mul_of_pos_right h1 h.1
    omega
  · exact List.Pairwise.nil

theorem mem_gridTimes {start stop step t : ℤ} (hstep : 0 < step) :
    t ∈ gridTimes start stop step ↔
      start ≤ t ∧ t ≤ stop ∧ step ∣ (t - start) := by
  unfold gridTimes
  by_cases hle : start ≤ stop
  · rw [if_pos ⟨hstep, hle⟩]
    simp only [List.mem_map, List.mem_range]
    constructor
    · rintro ⟨i, hi, rfl⟩
      have hq0 : (0 : ℤ) ≤ (stop - start) / step :=
        Int.ediv_nonneg (by omega) (le_of_lt hstep)
      have hiq : (i : ℤ) ≤ (stop - start) / step := by omega
      have h1 : (0 : ℤ) ≤ (i : ℤ) * step :=
        mul_nonneg (Int.natCast_nonneg i) (le_of_lt hstep)
      have h2 : (i : ℤ) * step ≤ (stop - start) / step * step :=
        mul_le_mul_of_nonneg_right hiq (le_of_lt hstep)
      have h3 : (stop - start) / step * step ≤ stop - start :=
        Int.ediv_mul_le _ (ne_of_gt hstep)
      exact ⟨by omega, by omega, ⟨i, by ring⟩⟩
    · rintro ⟨h1, h2, k, hk⟩
      have hsk : (0 : ℤ) ≤ step * k := by omega
      have hk0 : 0 ≤ k := by
        by_contra hneg
        push_neg at hneg
        have := mul_neg_of_pos_of_neg hstep hneg
        omega
      have hcomm := mul_comm k step
      have hkle : k ≤ (stop - start) / step := by
        rw [Int.le_ediv_iff_mul_le hstep]
        omega
      refine ⟨k.toNat, by omega, ?_⟩
      rw [Int.toNat_of_nonneg hk0]
      omega
  · rw [if_neg (by tauto)]
    simp only [List.not_mem_nil, false_iff]
    rintro ⟨h1, h2, -⟩
    exact hle (le_trans h1 h2)

/-! ## Lemmas about filtering a strictly increasing list -/

theorem filter_eq_nil_of_forall {p : ℤ → Bool} {l : List ℤ}
    (h : ∀ y ∈ l, p y = false) : l.filter p = [] := by
  induction l with
  | nil => rfl
  | cons x xs ih =>
    have hx := h x (List.mem_cons_self x xs)
    simp [List.filter_cons, hx, ih fun y hy => h y (List.mem_cons_of_mem _ hy)]

theorem filter_eq_single {p : ℤ → Bool} {l : List ℤ}
    (hl : l.Pairwise (· < ·)) {b : ℤ} (hb : b ∈ l)
    (hc : ∀ y ∈ l, p y = true ↔ y = b) : l.filter p = [b] := by
  induction l with
  | nil => cases hb
  | cons x xs ih =>
    rw [List.pairwise_cons] at hl
    rcases List.mem_cons.mp hb with heq | hbxs
    · have hx : p x = true := (hc x (List.mem_cons_self x xs)).mpr heq.symm
      rw [List.filter_cons, if_pos hx, heq]
      have hnil : xs.filter p = [] := by
        refine filter_eq_nil_of_forall fun y hy => ?_
        have hyx := hl.1 y hy
        cases hpy : p y with
        | false => rfl
        | true =>
          have : y = b := (hc y (List.mem_cons_of_mem _ hy)).mp hpy
          rw [this, ← heq] at hyx
          exact absurd hyx (lt_irrefl _)
      rw [hnil]
    · have hxb : x ≠ b := by
        intro h
        subst h
        exact absurd (hl.1 x hbxs) (lt_irrefl _)
      have hx : p x = false := by
        cases hpx : p x with
        | false => rfl
        | true => exact absurd ((hc x (List.mem_cons_self x xs)).mp hpx) hxb
      rw [List.filter_cons, if_neg (by simp [hx])]
      exact ih hl.2 hbxs fun y hy => hc y (List.mem_cons_of_mem _ hy)

theorem filter_eq_pair {p : ℤ → Bool} {l : List ℤ}
    (hl : l.Pairwise (· < ·)) {a b : ℤ} (ha : a ∈ l) (hb : b ∈ l)
    (hab : a < b) (hc : ∀ y ∈ l, p y = true ↔ (y = a ∨ y = b)) :
    l.filter p = [a, b] := by
  induction l with
  | nil => cases ha
  | cons x xs ih =>
    rw [List.pairwise_cons] at hl
    rcases List.mem_cons.mp ha with heq | haxs
    · have hx : p x = true :=
        (hc x (List.mem_cons_self x xs)).mpr (Or.inl heq.symm)
      rw [List.filter_cons, if_pos hx, heq]
      have hbxs : b ∈ xs := by
        rcases List.mem_cons.mp hb with heq2 | h
        · rw [heq2, ← heq] at hab
          exact absurd hab (lt_irrefl _)
        · exact h
      have hone : xs.filter p = [b] := by
        refine filter_eq_single hl.2 hbxs fun y hy => ?_
        have hyx := hl.1 y hy
        constructor
        · intro hp
          rcases (hc y (List.mem_cons_of_mem _ hy)).mp hp with h1 | h1
          · rw [h1, ← heq] at hyx
            exact absurd hyx (lt_irrefl _)
          · exact h1
        · intro h
          exact (hc y (List.mem_cons_of_mem _ hy)).mpr (Or.inr h)
      rw [hone]
    · have hxa : x ≠ a := by
        intro h
        subst h
        exact absurd (hl.1 x haxs) (lt_irrefl _)
      have hxb : x ≠ b := by
        intro h
        subst h
        have := hl.1 a haxs
        exact absurd (lt_trans this hab) (lt_irrefl _)
      have hx : p x = false := by
        cases hpx : p x with
        | false => rfl
        | true =>
          rcases (hc x (List.mem_cons_self x xs)).mp hpx with h1 | h1
          · exact absurd h1 hxa
          · exact absurd h1 hxb
      rw [List.filter_cons, if_neg (by simp [hx])]
      have hbxs : b ∈ xs := by
        rcases List.mem_cons.mp hb with heq2 | h
        · exact absurd heq2.symm hxb
        · exact h
      exact ih hl.2 haxs hbxs fun y hy => hc y (List.mem_cons_of_mem _ hy)

/-! ## Lemmas about the stable sort by `closeby` -/

theorem entryLE_trans (a b c : SunEntry) (hab : entryLE a b = true)
    (hbc : entryLE b c = true) : entryLE a c = true := by
  simp only [entryLE, decide_eq_true_eq] at *
  exact le_trans hab hbc

theorem entryLE_total (a b : SunEntry) : (entryLE a b || entryLE b a) = true := by
  simp only [entryLE, Bool.or_eq_true, decide_eq_true_eq]
  exact le_total a.closeby b.closeby

theorem sunCandidates_pairwise (oracle : ℤ → SunPos) (tg : Target)
    (cs ce acc : ℤ) :
    (sunCandidates oracle tg cs ce acc).Pairwise
      (fun a b => a.instant < b.instant) := by
  unfold sunCandidates
  rw [List.pairwise_map]
  exact ((gridTimes_pairwise cs ce acc).filter _).imp (fun hab => hab)

theorem mergeSort_head_spec {l : List SunEntry}
    (hpl : l.Pairwise (fun a b => a.instant < b.instant))
    {h : SunEntry} (hh : (l.mergeSort entryLE).head? = some h) :
    h ∈ l ∧ (∀ e ∈ l, h.closeby ≤ e.closeby) ∧
      (∀ e ∈ l, e.closeby = h.closeby → h.instant ≤ e.instant) := by
  rcases es : l.mergeSort entryLE with _ | ⟨h', t⟩
  · rw [es] at hh
    cases hh
  rw [es] at hh
  rw [List.head?_cons, Option.some.injEq] at hh
  subst hh
  have hperm : (h' :: t).Perm l := es ▸ List.mergeSort_perm l entryLE
  have hmem : h' ∈ l := hperm.subset (List.mem_cons_self _ _)
  have hsorted : (h' :: t).Pairwise (fun a b => entryLE a b = true) :=
    es ▸ List.sorted_mergeSort entryLE_trans entryLE_total l
  rw [List.pairwise_cons] at hsorted
  refine ⟨hmem, ?_, ?_⟩
  · intro e he
    rcases List.mem_cons.mp (hperm.mem_iff.mpr he) with heq | het
    · rw [heq]
    · have := hsorted.1 e het
      simpa [entryLE, decide_eq_true_eq] using this
  · -- stability: the accepted entries with minimal score keep their
    -- chronological order, so the head is the earliest of its score class
    intro e he hce
    set q : SunEntry → Bool := fun x => decide (x.closeby = h'.closeby) with hq
    have hqsub : (l.filter q).Sublist l := List.filter_sublist l
    have hqpw : (l.filter q).Pairwise (fun a b => entryLE a b = true) := by
      refine List.pairwise_iff_forall_sublist.mpr ?_
      intro a b hab
      have ha : a ∈ l.filter q := hab.subset (List.mem_cons_self _ _)
      have hb : b ∈ l.filter q :=
        hab.subset (List.mem_cons_of_mem _ (List.mem_cons_self _ _))
      have ha' := (List.mem_filter.mp ha).2
      have hb' := (List.mem_filter.mp hb).2
      simp only [hq, decide_eq_true_eq] at ha' hb'
      simp [entryLE, ha', hb']
    have hcs : (l.filter q).Sublist (h' :: t) :=
      es ▸ List.sublist_mergeSort entryLE_trans entryLE_total hqpw hqsub
    have hhq : h' ∈ l.filter q := by
      refine List.mem_filter.mpr ⟨hmem, ?_⟩
      simp [hq]
    have hnd : l.Nodup := by
      refine hpl.imp ?_
      intro a b hab heq
      rw [heq] at hab
      exact lt_irrefl _ hab
    have hndsort : (h' :: t).Nodup :=
      (hperm.nodup_iff).mpr hnd
    have hnt : h' ∉ t := (List.nodup_cons.mp hndsort).1
    have heq2 : e ∈ l.filter q := by
      refine List.mem_filter.mpr ⟨he, ?_⟩
      simp [hq, hce]
    rcases ec : l.filter q with _ | ⟨c0, c'⟩
    · rw [ec] at hhq
      cases hhq
    rw [ec] at hcs hhq heq2
    cases hcs with
    | cons _ hsub2 =>
      exact absurd (hsub2.subset hhq) hnt
    | cons₂ _ hsub2 =>
      have hcpw : (h' :: c').Pairwise (fun a b => a.instant < b.instant) := by
        have : (h' :: c').Sublist l := ec ▸ hqsub
        exact hpl.sublist this
      rw [List.pairwise_cons] at hcpw
      rcases List.mem_cons.mp heq2 with heq3 | hec
      · rw [heq3]
      · exact le_of_lt (hcpw.1 e hec)

/-! ## Small permutation helpers for evaluating the sorted results -/

theorem perm_pair_cases {α : Type} {l : List α} {a b : α}
    (h : l.Perm [a, b]) : l = [a, b] ∨ l = [b, a] := by
  rcases l with _ | ⟨x, l⟩
  · exact absurd h.length_eq (by simp)
  rcases l with _ | ⟨y, l⟩
  · exact absurd h.length_eq (by simp)
  rcases l with _ | ⟨z, l⟩
  case cons.cons.cons =>
    exact absurd h.length_eq (by simp)
  have hx : x ∈ [a, b] := h.subset (List.mem_cons_self _ _)
  rcases List.mem_cons.mp hx with heq | hx2
  · left
    subst heq
    have hy : [y].Perm [b] := (List.perm_cons x).mp h
    rw [List.perm_singleton.mp hy]
  · have heqb : x = b := by
      rcases List.mem_cons.mp hx2 with heq | h2
      · exact heq
      · cases h2
    subst heqb
    right
    have hsw : ([a, x] : List α).Perm [x, a] := List.Perm.swap x a []
    have hy : [y].Perm [a] := (List.perm_cons x).mp (h.trans hsw)
    rw [List.perm_singleton.mp hy]

theorem mergeSort_singleton_eq (a : SunEntry) :
    [a].mergeSort entryLE = [a] :=
  List.perm_singleton.mp (List.mergeSort_perm [a] entryLE)

theorem mergeSort_pair_of_lt {a b : SunEntry} (hba : b.closeby < a.closeby) :
    [a, b].mergeSort entryLE = [b, a] := by
  rcases perm_pair_cases (List.mergeSort_perm [a, b] entryLE) with h | h
  · have hs := List.sorted_mergeSort entryLE_trans entryLE_total [a, b]
    rw [h, List.pairwise_cons] at hs
    have hab := hs.1 b (List.mem_cons_self _ _)
    simp only [entryLE, decide_eq_true_eq] at hab
    exact absurd hab (not_le.mpr hba)
  · exact h

theorem calculate_sun_nil_eq (oracle : ℤ → SunPos) (tg : Target)
    (cs ce acc : ℤ) :
    calculate_sun oracle tg cs ce acc [] =
      (sunCandidates oracle tg cs ce acc).mergeSort entryLE := rfl

theorem calculate_sun_nil_length (oracle : ℤ → SunPos) (tg : Target)
    (cs ce acc : ℤ) :
    (calculate_sun oracle tg cs ce acc []).length =
      (sunCandidates oracle tg cs ce acc).length := by
  rw [calculate_sun_nil_eq]
  exact (List.mergeSort_perm _ _).length_eq

theorem countP_eq_one_of_nodup {l : List ℤ} (hnd : l.Nodup) {t : ℤ}
    (ht : t ∈ l) : l.countP (fun x => decide (x = t)) = 1 := by
  induction l with
  | nil => cases ht
  | cons x xs ih =>
    rw [List.nodup_cons] at hnd
    rcases List.mem_cons.mp ht with heq | hxs
    · rw [← heq]
      rw [List.countP_cons_of_pos _ _ (by simp)]
      have hzero : xs.countP (fun y => decide (y = t)) = 0 := by
        rw [List.countP_eq_zero]
        intro y hy
        simp only [decide_eq_true_eq]
        intro heq2
        rw [heq2, heq] at hy
        exact hnd.1 hy
      omega
    · by_cases hxt : x = t
      · rw [hxt] at hnd
        exact absurd hxs hnd.1
      · rw [List.countP_cons_of_neg _ _ (by simp [hxt])]
        exact ih hnd.2 hxs

/-! ## Claims -/

/-- Claim C2 (tolerance filter): a sample is accepted iff both per-axis
absolute deviations are strictly below the tolerance — 2° in Moon mode,
3° in Sun mode — and a deviation exactly equal to the tolerance on either
axis is rejected. -/
theorem tolerance_filter (mp : MoonPos) (sp : SunPos) (tg : Target) :
    (moonAccept mp tg = true ↔
      |mp.alt - tg.alt| < 2 ∧ |mp.az - tg.az| < 2) ∧
    (sunAccept sp tg = true ↔
      |sp.alt - tg.alt| < 3 ∧ |sp.az - tg.az| < 3) ∧
    (|mp.alt - tg.alt| = 2 ∨ |mp.az - tg.az| = 2 →
      moonAccept mp tg = false) ∧
    (|sp.alt - tg.alt| = 3 ∨ |sp.az - tg.az| = 3 →
      sunAccept sp tg = false) := by
  refine ⟨by simp [moonAccept], by simp [sunAccept], ?_, ?_⟩
  · rintro (h | h) <;> simp [moonAccept, h]
  · rintro (h | h) <;> simp [sunAccept, h]

/-- Witness for `tolerance_filter`: a concrete in-tolerance moon sample. -/
theorem tolerance_filter_witness :
    (|(45 : ℚ) - 44| < 2 ∧ |(180 : ℚ) - 179| < 2) ∧
      moonAccept ⟨45, 180, 1/2⟩ ⟨44, 179⟩ = true :=
  ⟨by norm_num,
    (tolerance_filter ⟨45, 180, 1/2⟩ ⟨0, 0⟩ ⟨44, 179⟩).1.mpr (by norm_num)⟩

/-- Claim C6 (grid coverage): a window `[start, stop]` with step `s` yields
exactly `⌊(stop−start)/s⌋ + 1` instants, the `i`-th being `start + i·s`, in
strictly increasing order, and the oracle is queried once per instant (the
sample sequence projects back onto the grid). -/
theorem grid_coverage (oracle : ℤ → SunPos) (start stop step : ℤ)
    (hstep : 0 < step) (hle : start ≤ stop) :
    (gridTimes start stop step).length = ((stop - start) / step).toNat + 1 ∧
    (∀ (i : ℕ) (hi : i < (gridTimes start stop step).length),
      (gridTimes start stop step)[i] = start + (i : ℤ) * step) ∧
    (gridTimes start stop step).Pairwise (· < ·) ∧
    (sunSamples oracle start stop step).map Prod.fst =
      gridTimes start stop step :=
  ⟨gridTimes_length hstep hle,
   fun i hi => gridTimes_getElem hstep hle i hi,
   gridTimes_pairwise start stop step,
   by
     unfold sunSamples
     rw [List.map_map]
     exact List.map_id' _⟩

/-- Witness for `grid_coverage` at the window `[0, 30]` with step 15. -/
theorem grid_coverage_witness :
    (0 : ℤ) < 15 ∧ (0 : ℤ) ≤ 30 ∧
      (gridTimes 0 30 15).length = (((30 : ℤ) - 0) / 15).toNat + 1 :=
  ⟨by norm_num, by norm_num,
    (grid_coverage (fun _ => ⟨0, 0⟩) 0 30 15 (by norm_num) (by norm_num)).1⟩

/-- Claim C8 (no azimuth wraparound): deviations are raw degree differences:
with target azimuth 359° and the Sun tolerance 3°, a sample at azimuth 1°
and matching altitude is rejected since |1−359| = 358 is not below 3, even
though the true angular separation min(358, 360−358) = 2 is below 3. -/
theorem azimuth_no_wraparound :
    sunAccept ⟨0, 1⟩ ⟨0, 359⟩ = false ∧
    |(1 : ℚ) - 359| = 358 ∧ ¬(|(1 : ℚ) - 359| < 3) ∧
    min |(1 : ℚ) - 359| (360 - |(1 : ℚ) - 359|) = 2 ∧ (2 : ℚ) < 3 := by
  refine ⟨?_, by norm_num, by norm_num, by norm_num, by norm_num⟩
  norm_num [sunAccept]

/-- Claim C9 (determinism): the search outcome depends on the ephemeris
oracle only through its values — two runs with identical observer, target,
year, mode and step, whose oracles agree pointwise, produce identical
outcomes (so a deterministic oracle gives reproducible runs). -/
theorem deterministic_runs (o1 o2 : ℤ → SunPos) (m1 m2 : ℤ → MoonPos)
    (year solsticeSec : ℤ) (tg : Target) (accuracy : ℤ)
    (hs : ∀ t, o1 t = o2 t) (hm : ∀ t, m1 t = m2 t) :
    get_sun_position o1 year solsticeSec tg accuracy =
      get_sun_position o2 year solsticeSec tg accuracy ∧
    get_moon_position m1 year tg = get_moon_position m2 year tg := by
  have h1 : o1 = o2 := funext hs
  have h2 : m1 = m2 := funext hm
  rw [h1, h2]
  exact ⟨rfl, rfl⟩

/-- Witness for `deterministic_runs` on two pointwise-equal oracles. -/
theorem deterministic_runs_witness :
    get_sun_position (fun _ => ⟨0, 0⟩) 2023 14580000 ⟨45, 180⟩ 15 =
      get_sun_position (fun _ => ⟨0 + 0, 0⟩) 2023 14580000 ⟨45, 180⟩ 15 :=
  (deterministic_runs (fun _ => ⟨0, 0⟩) (fun _ => ⟨0 + 0, 0⟩)
    (fun _ => ⟨0, 0, 0⟩) (fun _ => ⟨0, 0, 0⟩) 2023 14580000 ⟨45, 180⟩ 15
    (fun t => by norm_num) (fun t => rfl)).1

/-- Claim C3 (window partition): the Sun search derives exactly two windows:
window A starts at Jan 1 00:00 (instant 0), window A's end and window B's
start are both the solstice instant truncated to the top of the hour, and
window B ends at Dec 31 23:59 (`yearEndMinutes`); when the truncated
solstice lies inside the year the two closed windows intersect in exactly
that single boundary instant. -/
theorem window_partition (year solsticeSec : ℤ)
    (h0 : 0 ≤ truncToHour solsticeSec)
    (h1 : truncToHour solsticeSec ≤ yearEndMinutes year) :
    (splitYear year solsticeSec).1.1 = 0 ∧
    (splitYear year solsticeSec).1.2 = truncToHour solsticeSec ∧
    (splitYear year solsticeSec).2.1 = truncToHour solsticeSec ∧
    (splitYear year solsticeSec).2.2 = yearEndMinutes year ∧
    (∀ t : ℤ,
      ((splitYear year solsticeSec).1.1 ≤ t ∧
        t ≤ (splitYear year solsticeSec).1.2 ∧
        (splitYear year solsticeSec).2.1 ≤ t ∧
        t ≤ (splitYear year solsticeSec).2.2) ↔
      t = truncToHour solsticeSec) := by
  refine ⟨rfl, rfl, rfl, rfl, ?_⟩
  intro t
  simp only [splitYear]
  constructor
  · rintro ⟨ha, hb, hc, hd⟩
    omega
  · rintro rfl
    exact ⟨h0, le_refl _, le_refl _, h1⟩

/-- Witness for `window_partition` at year 2023 and a mid-June solstice. -/
theorem window_partition_witness :
    ((0 : ℤ) ≤ truncToHour 14580000 ∧
      truncToHour 14580000 ≤ yearEndMinutes 2023) ∧
    ((splitYear 2023 14580000).1.1 ≤ truncToHour 14580000 ∧
      truncToHour 14580000 ≤ (splitYear 2023 14580000).1.2 ∧
      (splitYear 2023 14580000).2.1 ≤ truncToHour 14580000 ∧
      truncToHour 14580000 ≤ (splitYear 2023 14580000).2.2) :=
  ⟨⟨by decide, by decide⟩,
    ((window_partition 2023 14580000 (by decide) (by decide)).2.2.2.2
      (truncToHour 14580000)).mpr rfl⟩

/-- Claim C4 (no-solution handling): with no sample inside tolerance, Moon
mode reports the informational "no solution" message and still exits with
status 0, while Sun mode exits non-zero via `sys.exit` with its explanatory
message exactly when the first window produced fewer than two candidate
entries. -/
theorem no_solution_handling (m : ℤ → MoonPos) (o : ℤ → SunPos)
    (year solsticeSec : ℤ) (tg : Target) (accuracy : ℤ) :
    (moonRows m year tg = [] ↔ get_moon_position m year tg = .noSolution) ∧
    moonExitCode (get_moon_position m year tg) = 0 ∧
    (get_sun_position o year solsticeSec tg accuracy = .failureExit ↔
      (calculate_sun o tg 0 (truncToHour solsticeSec) accuracy []).length
        < 2) ∧
    sunExitCode .failureExit ≠ 0 := by
  refine ⟨?_, ?_, ?_, by simp [sunExitCode]⟩
  · simp only [get_moon_position]
    by_cases h : moonRows m year tg = []
    · simp [h]
    · simp [h, List.isEmpty_iff]
  · simp only [get_moon_position]
    split
    · rfl
    · rfl
  · simp only [get_sun_position, splitYear]
    split
    · next hlt => simp [hlt]
    · next hge =>
      constructor
      · intro hmatch
        split at hmatch
        · cases hmatch
        · cases hmatch
      · intro hlen
        exact absurd hlen hge

/-- Witness for `no_solution_handling`: the failure exit status is 1. -/
theorem no_solution_handling_witness :
    sunExitCode .failureExit ≠ 0 :=
  (no_solution_handling (fun _ => ⟨0, 0, 0⟩) (fun _ => ⟨0, 0⟩) 2023
    14580000 ⟨45, 180⟩ 15).2.2.2

/-- Claim C5 (empty second window): when the first window yields at least two
candidate samples but the second window yields none, `get_sun_position`
neither reports nor prints a no-solution message — evaluating
`results2[0]` on line 107 raises an unhandled `IndexError`. -/
theorem empty_second_window_index_error (o : ℤ → SunPos)
    (year solsticeSec : ℤ) (tg : Target) (accuracy : ℤ)
    (h1 : 2 ≤ (sunCandidates o tg 0 (truncToHour solsticeSec)
      accuracy).length)
    (h2 : sunCandidates o tg (truncToHour solsticeSec) (yearEndMinutes year)
      accuracy = []) :
    get_sun_position o year solsticeSec tg accuracy = .indexError := by
  have hr1len := calculate_sun_nil_length o tg 0 (truncToHour solsticeSec)
    accuracy
  have hr2 : calculate_sun o tg (truncToHour solsticeSec)
      (yearEndMinutes year) accuracy [] = [] := by
    rw [calculate_sun_nil_eq, h2]
    exact (List.mergeSort_perm [] entryLE).eq_nil
  simp only [get_sun_position, splitYear]
  rw [if_neg (by omega), hr2]
  cases hx : (calculate_sun o tg 0 (truncToHour solsticeSec) accuracy
      []).head? with
  | none => rfl
  | some a => rfl

/-- Witness for `empty_second_window_index_error`: a concrete oracle whose
first window holds two candidates while the second window holds none. -/
theorem empty_second_window_witness :
    2 ≤ (sunCandidates w5Oracle ⟨45, 180⟩ 0 (truncToHour 14580000)
      200000).length ∧
    sunCandidates w5Oracle ⟨45, 180⟩ (truncToHour 14580000)
      (yearEndMinutes 2023) 200000 = [] ∧
    get_sun_position w5Oracle 2023 14580000 ⟨45, 180⟩ 200000 =
      .indexError := by
  have ht : truncToHour 14580000 = 243000 := by decide
  have hE : yearEndMinutes 2023 = 525599 := by decide
  have hg1 : gridTimes 0 243000 200000 = [0, 200000] := by decide
  have hg2 : gridTimes 243000 525599 200000 = [243000, 443000] := by decide
  have hp0 : sunAccept (w5Oracle 0) ⟨45, 180⟩ = true := by
    norm_num [w5Oracle, sunAccept]
  have hp1 : sunAccept (w5Oracle 200000) ⟨45, 180⟩ = true := by
    norm_num [w5Oracle, sunAccept]
  have hq1 : sunAccept (w5Oracle 243000) ⟨45, 180⟩ = false := by
    norm_num [w5Oracle, sunAccept]
  have hq2 : sunAccept (w5Oracle 443000) ⟨45, 180⟩ = false := by
    norm_num [w5Oracle, sunAccept]
  have hc1 : 2 ≤ (sunCandidates w5Oracle ⟨45, 180⟩ 0 (truncToHour 14580000)
      200000).length := by
    unfold sunCandidates
    rw [ht, hg1]
    simp [List.filter_cons, hp0, hp1]
  have hc2 : sunCandidates w5Oracle ⟨45, 180⟩ (truncToHour 14580000)
      (yearEndMinutes 2023) 200000 = [] := by
    unfold sunCandidates
    rw [ht, hE, hg2]
    simp [List.filter_cons, hq1, hq2]
  exact ⟨hc1, hc2, empty_second_window_index_error w5Oracle 2023 14580000
    ⟨45, 180⟩ 200000 hc1 hc2⟩

/-- Claim C7 (Moon-mode output order): every sample passing the tolerance
test yields exactly one output row, the rows appear in the sampler's
chronological order, and no scoring or sorting is applied: the row instants
are exactly the accepted grid instants, in grid order. -/
theorem moon_rows_chronological (m : ℤ → MoonPos) (year : ℤ) (tg : Target) :
    (moonRows m year tg).map MoonEntry.instant =
      (gridTimes 0 (yearEndMinutes year) 15).filter
        (fun t => moonAccept (m t) tg) ∧
    (moonRows m year tg).Pairwise (fun a b => a.instant < b.instant) ∧
    (∀ t ∈ gridTimes 0 (yearEndMinutes year) 15, moonAccept (m t) tg = true →
      (moonRows m year tg).countP (fun r => decide (r.instant = t)) = 1) := by
  have hmap : (moonRows m year tg).map MoonEntry.instant =
      (gridTimes 0 (yearEndMinutes year) 15).filter
        (fun t => moonAccept (m t) tg) := by
    unfold moonRows
    rw [List.map_map]
    exact List.map_id' _
  refine ⟨hmap, ?_, ?_⟩
  · unfold moonRows
    rw [List.pairwise_map]
    exact ((gridTimes_pairwise _ _ _).filter _).imp (fun hab => hab)
  · intro t ht hacc
    have h1 : (moonRows m year tg).countP (fun r => decide (r.instant = t)) =
        ((moonRows m year tg).map MoonEntry.instant).countP
          (fun x => decide (x = t)) := by
      rw [List.countP_map]
      rfl
    rw [h1, hmap]
    refine countP_eq_one_of_nodup ?_ (List.mem_filter.mpr ⟨ht, hacc⟩)
    have hnd : (gridTimes 0 (yearEndMinutes year) 15).Nodup := by
      refine (gridTimes_pairwise _ _ _).imp ?_
      intro a b hab heq
      rw [heq] at hab
      exact lt_irrefl _ hab
    exact hnd.filter _

/-- Witness for `moon_rows_chronological` at a concrete oracle and year. -/
theorem moon_rows_chronological_witness :
    (moonRows (fun _ => ⟨0, 0, 0⟩) 2023 ⟨45, 180⟩).Pairwise
      (fun a b => a.instant < b.instant) :=
  (moon_rows_chronological (fun _ => ⟨0, 0, 0⟩) 2023 ⟨45, 180⟩).2.1

/-- Claim C1 (best match): the head of a window's sorted result list — the
reported representative match `results[0]` — is an accepted candidate of
that window with globally minimal score |Δalt|·|Δaz| (computed from the
raw, unrounded oracle values), and among equal-score candidates it is the
chronologically earliest. -/
theorem sun_best_match (oracle : ℤ → SunPos) (tg : Target) (cs ce acc : ℤ)
    (h : SunEntry)
    (hh : (calculate_sun oracle tg cs ce acc []).head? = some h) :
    h ∈ sunCandidates oracle tg cs ce acc ∧
    (∀ e ∈ sunCandidates oracle tg cs ce acc, h.closeby ≤ e.closeby) ∧
    (∀ e ∈ sunCandidates oracle tg cs ce acc,
      e.closeby = h.closeby → h.instant ≤ e.instant) := by
  rw [calculate_sun_nil_eq] at hh
  exact mergeSort_head_spec (sunCandidates_pairwise oracle tg cs ce acc) hh

/-- Witness for `sun_best_match`: a window whose only candidate is the
sample at instant 15, which is then the reported head. -/
theorem sun_best_match_witness :
    (calculate_sun w1Oracle ⟨45, 180⟩ 0 30 15 []).head? =
      some (sunEntry w1Oracle ⟨45, 180⟩ 15) ∧
    sunEntry w1Oracle ⟨45, 180⟩ 15 ∈
      sunCandidates w1Oracle ⟨45, 180⟩ 0 30 15 := by
  have hg : gridTimes 0 30 15 = [0, 15, 30] := by decide
  have hp0 : sunAccept (w1Oracle 0) ⟨45, 180⟩ = false := by
    norm_num [w1Oracle, sunAccept]
  have hp15 : sunAccept (w1Oracle 15) ⟨45, 180⟩ = true := by
    norm_num [w1Oracle, sunAccept]
  have hp30 : sunAccept (w1Oracle 30) ⟨45, 180⟩ = false := by
    norm_num [w1Oracle, sunAccept]
  have hc : sunCandidates w1Oracle ⟨45, 180⟩ 0 30 15 =
      [sunEntry w1Oracle ⟨45, 180⟩ 15] := by
    unfold sunCandidates
    rw [hg]
    simp [List.filter_cons, hp0, hp15, hp30]
  have hh : (calculate_sun w1Oracle ⟨45, 180⟩ 0 30 15 []).head? =
      some (sunEntry w1Oracle ⟨45, 180⟩ 15) := by
    rw [calculate_sun_nil_eq, hc, mergeSort_singleton_eq]
    rfl
  exact ⟨hh, (sun_best_match w1Oracle ⟨45, 180⟩ 0 30 15 _ hh).1⟩

/-! ## The boundary-instant scenario -/

theorem dOracle_accept (s y : ℤ) :
    sunAccept (dOracle s y) ⟨0, 180⟩ = true ↔ (y = 0 ∨ y = s) := by
  unfold dOracle
  by_cases h1 : y = s
  · rw [if_pos h1]
    constructor
    · intro _
      exact Or.inr h1
    · intro _
      norm_num [sunAccept]
  · rw [if_neg h1]
    by_cases h2 : y = 0
    · rw [if_pos h2]
      constructor
      · intro _
        exact Or.inl h2
      · intro _
        norm_num [sunAccept]
    · rw [if_neg h2]
      constructor
      · intro hacc
        exfalso
        norm_num [sunAccept] at hacc
      · rintro (h | h)
        · exact absurd h h2
        · exact absurd h h1

theorem double_report_core (s E step : ℤ) (hstep0 : 0 < step)
    (hdvd : step ∣ s) (hpos : 0 < s) (hle : s ≤ E) :
    calculate_sun (dOracle s) ⟨0, 180⟩ 0 s step [] =
      [sunEntry (dOracle s) ⟨0, 180⟩ s, sunEntry (dOracle s) ⟨0, 180⟩ 0] ∧
    calculate_sun (dOracle s) ⟨0, 180⟩ s E step [] =
      [sunEntry (dOracle s) ⟨0, 180⟩ s] := by
  have hmem0 : (0 : ℤ) ∈ gridTimes 0 s step :=
    (mem_gridTimes hstep0).mpr ⟨le_refl 0, hpos.le, by simp⟩
  have hmemS : s ∈ gridTimes 0 s step :=
    (mem_gridTimes hstep0).mpr ⟨hpos.le, le_refl s, by simpa using hdvd⟩
  have hmemS2 : s ∈ gridTimes s E step :=
    (mem_gridTimes hstep0).mpr ⟨le_refl s, hle, by simp⟩
  have hgrid1 : (gridTimes 0 s step).filter
      (fun t => sunAccept (dOracle s t) ⟨0, 180⟩) = [0, s] :=
    filter_eq_pair (gridTimes_pairwise 0 s step) hmem0 hmemS hpos
      (fun y _ => dOracle_accept s y)
  have hgrid2 : (gridTimes s E step).filter
      (fun t => sunAccept (dOracle s t) ⟨0, 180⟩) = [s] :=
    filter_eq_single (gridTimes_pairwise s E step) hmemS2
      (fun y hy => by
        have hymem := (mem_gridTimes hstep0).mp hy
        rw [dOracle_accept s y]
        constructor
        · rintro (h | h)
          · exfalso
            omega
          · exact h
        · intro h
          exact Or.inr h)
  have h0s : (0 : ℤ) ≠ s := by omega
  have hscoreS : (sunEntry (dOracle s) ⟨0, 180⟩ s).closeby = 0 := by
    simp [sunEntry, dOracle]
  have hscore0 : (sunEntry (dOracle s) ⟨0, 180⟩ 0).closeby = 1 := by
    simp [sunEntry, dOracle, h0s]
    norm_num
  constructor
  · rw [calculate_sun_nil_eq]
    have hc : sunCandidates (dOracle s) ⟨0, 180⟩ 0 s step =
        [sunEntry (dOracle s) ⟨0, 180⟩ 0,
          sunEntry (dOracle s) ⟨0, 180⟩ s] := by
      unfold sunCandidates
      rw [hgrid1]
      rfl
    rw [hc]
    exact mergeSort_pair_of_lt (by rw [hscoreS, hscore0]; norm_num)
  · rw [calculate_sun_nil_eq]
    have hc : sunCandidates (dOracle s) ⟨0, 180⟩ s E step =
        [sunEntry (dOracle s) ⟨0, 180⟩ s] := by
      unfold sunCandidates
      rw [hgrid2]
      rfl
    rw [hc, mergeSort_singleton_eq]

theorem double_report_exists (year solsticeSec step : ℤ)
    (hstep : step = 15 ∨ step = 2)
    (hpos : 0 < truncToHour solsticeSec)
    (hle : truncToHour solsticeSec ≤ yearEndMinutes year) :
    ∃ (o2 : ℤ → SunPos) (tg2 : Target) (r : SunRow),
      get_sun_position o2 year solsticeSec tg2 step = .report r r ∧
      r.instant = truncToHour solsticeSec := by
  have hstep0 : 0 < step := by rcases hstep with rfl | rfl <;> norm_num
  have h60 : (60 : ℤ) ∣ truncToHour solsticeSec :=
    ⟨solsticeSec / 3600, by unfold truncToHour; ring⟩
  have hdvd : step ∣ truncToHour solsticeSec := by
    refine dvd_trans ?_ h60
    rcases hstep with rfl | rfl <;> norm_num
  obtain ⟨hr1, hr2⟩ := double_report_core (truncToHour solsticeSec)
    (yearEndMinutes year) step hstep0 hdvd hpos hle
  refine ⟨dOracle (truncToHour solsticeSec), ⟨0, 180⟩,
    ⟨truncToHour solsticeSec,
      (sunEntry (dOracle (truncToHour solsticeSec)) ⟨0, 180⟩
        (truncToHour solsticeSec)).altR,
      (sunEntry (dOracle (truncToHour solsticeSec)) ⟨0, 180⟩
        (truncToHour solsticeSec)).azR⟩, ?_, rfl⟩
  simp only [get_sun_position, splitYear]
  rw [hr1, hr2]
  rfl

/-- Claim C10 (shared boundary sampled twice): the hour-truncated solstice is
a multiple of 60 minutes, so for both step sizes (15 and 2) it lies exactly
on the sampling grid of each window (window A starts at Jan 1 00:00,
window B at the boundary itself); if its sample passes the tolerance test
it is a candidate of both windows, and there are oracles for which both
reported rows are that same boundary instant. -/
theorem solstice_on_both_grids (oracle : ℤ → SunPos)
    (year solsticeSec : ℤ) (tg : Target) (step : ℤ)
    (hstep : step = 15 ∨ step = 2)
    (hpos : 0 < truncToHour solsticeSec)
    (hle : truncToHour solsticeSec ≤ yearEndMinutes year) :
    truncToHour solsticeSec ∈ gridTimes 0 (truncToHour solsticeSec) step ∧
    truncToHour solsticeSec ∈
      gridTimes (truncToHour solsticeSec) (yearEndMinutes year) step ∧
    (sunAccept (oracle (truncToHour solsticeSec)) tg = true →
      sunEntry oracle tg (truncToHour solsticeSec) ∈
        sunCandidates oracle tg 0 (truncToHour solsticeSec) step ∧
      sunEntry oracle tg (truncToHour solsticeSec) ∈
        sunCandidates oracle tg (truncToHour solsticeSec)
          (yearEndMinutes year) step) ∧
    (∃ (o2 : ℤ → SunPos) (tg2 : Target) (r : SunRow),
      get_sun_position o2 year solsticeSec tg2 step = .report r r ∧
      r.instant = truncToHour solsticeSec) := by
  have hstep0 : 0 < step := by rcases hstep with rfl | rfl <;> norm_num
  have h60 : (60 : ℤ) ∣ truncToHour solsticeSec :=
    ⟨solsticeSec / 3600, by unfold truncToHour; ring⟩
  have hdvd : step ∣ truncToHour solsticeSec := by
    refine dvd_trans ?_ h60
    rcases hstep with rfl | rfl <;> norm_num
  have hm1 : truncToHour solsticeSec ∈
      gridTimes 0 (truncToHour solsticeSec) step :=
    (mem_gridTimes hstep0).mpr ⟨hpos.le, le_refl _, by simpa using hdvd⟩
  have hm2 : truncToHour solsticeSec ∈
      gridTimes (truncToHour solsticeSec) (yearEndMinutes year) step :=
    (mem_gridTimes hstep0).mpr ⟨le_refl _, hle, by simp⟩
  refine ⟨hm1, hm2, ?_,
    double_report_exists year solsticeSec step hstep hpos hle⟩
  intro hacc
  exact ⟨List.mem_map.mpr ⟨_, List.mem_filter.mpr ⟨hm1, hacc⟩, rfl⟩,
    List.mem_map.mpr ⟨_, List.mem_filter.mpr ⟨hm2, hacc⟩, rfl⟩⟩

/-- Witness for `solstice_on_both_grids` at year 2023 and step 15. -/
theorem solstice_on_both_grids_witness :
    (((15 : ℤ) = 15 ∨ (15 : ℤ) = 2) ∧ (0 : ℤ) < truncToHour 14580000 ∧
      truncToHour 14580000 ≤ yearEndMinutes 2023) ∧
    truncToHour 14580000 ∈ gridTimes 0 (truncToHour 14580000) 15 :=
  ⟨⟨Or.inl rfl, by decide, by decide⟩,
    (solstice_on_both_grids (fun _ => ⟨0, 0⟩) 2023 14580000 ⟨45, 180⟩ 15
      (Or.inl rfl) (by decide) (by decide)).1⟩
